import Mathlib

/-!
Verification development for the MeinFinanztool budgeting engine
(src/services/db.ts and src/components/Dashboard.tsx).

Embedding conventions:
* Date strings "YYYY-MM-DD" are modeled structurally as year/month/day
  triples (`SDate`).  The source compares dates via string operations
  (startsWith of the "YYYY-MM" part) and via JS `Date` timestamps; these
  are modeled, respectively, by year/month equality and by the rata-die
  order `toRD`.  The wall-clock `now` carries a time-of-day strictly
  after midnight in the source, so the JS comparison
  `new Date(tx.date) > now` (midnight date vs. mid-day now) holds
  exactly when the transaction date is a strictly later calendar day.
* JS numbers (amounts) are modeled as rationals.
* Impure reads (`crypto.randomUUID()`, `Date.now()`, `new Date()`) are
  modeled as explicit parameters / read streams.
-/

set_option maxHeartbeats 1000000

/-- Gregorian leap-year test (as implicit in JS `Date` month arithmetic). -/
def isLeap (y : Nat) : Bool :=
  (y % 4 == 0 && y % 100 != 0) || (y % 400 == 0)

/-- Number of days of month `m` (1-12) of year `y`; this is what
`new Date(year, month + 1, 0).getDate()` computes in db.ts line 328. -/
def daysInMonth (y m : Nat) : Nat :=
  if m = 2 then (if isLeap y then 29 else 28)
  else if m = 4 ∨ m = 6 ∨ m = 9 ∨ m = 11 then 30
  else 31

/-- A calendar date (year, 1-based month, 1-based day). -/
structure SDate where
  year : Nat
  month : Nat
  day : Nat
deriving DecidableEq, Repr

/-- The date denotes an actual calendar day (and a positive year,
which holds for every date this application manipulates). -/
def SDate.Valid (d : SDate) : Prop :=
  1 ≤ d.year ∧ 1 ≤ d.month ∧ d.month ≤ 12 ∧ 1 ≤ d.day ∧ d.day ≤ daysInMonth d.year d.month

instance (d : SDate) : Decidable d.Valid := by
  unfold SDate.Valid; infer_instance

/-- The calendar day following `d` (JS `d.setDate(d.getDate() + 1)`). -/
def nextDay (d : SDate) : SDate :=
  if d.day < daysInMonth d.year d.month then ⟨d.year, d.month, d.day + 1⟩
  else if d.month < 12 then ⟨d.year, d.month + 1, 1⟩
  else ⟨d.year + 1, 1, 1⟩

/-- `n` calendar days after `d` (JS `d.setDate(d.getDate() + n)`). -/
def addDays (d : SDate) : Nat → SDate
  | 0 => d
  | n + 1 => nextDay (addDays d n)

/-- Days in months `1, ..., m-1` of year `y`. -/
def daysBeforeMonth (y : Nat) : Nat → Nat
  | 0 => 0
  | 1 => 0
  | m + 2 => daysBeforeMonth y (m + 1) + daysInMonth y (m + 1)

/-- Rata-die number of a date: day 1 is 0001-01-01 (proleptic Gregorian,
a Monday).  This is the day count underlying JS `Date.getTime()`
comparisons of midnight dates. -/
def toRD (d : SDate) : Nat :=
  365 * (d.year - 1) + (d.year - 1) / 4 - (d.year - 1) / 100 + (d.year - 1) / 400
    + daysBeforeMonth d.year d.month + d.day

/-- JS `Date.prototype.getDay`: 0 = Sunday, ..., 6 = Saturday. -/
def getDay (d : SDate) : Nat := toRD d % 7

/-- JS timestamp comparison `a.getTime() < b.getTime()` on midnight dates. -/
def dateLt (a b : SDate) : Bool := decide (toRD a < toRD b)

/-- JS timestamp comparison `a.getTime() <= b.getTime()` on midnight dates. -/
def dateLe (a b : SDate) : Bool := decide (toRD a ≤ toRD b)

/-! ## Data model

The record shapes of types.ts (newest revision, exactly the fields read
and written by db.ts and Dashboard.tsx). -/

inductive TxType where
  | income
  | expense
deriving DecidableEq, Repr

inductive TxStatus where
  | pending
  | completed
deriving DecidableEq, Repr

inductive Account where
  | bank
  | cash
deriving DecidableEq, Repr

inductive PayMethod where
  | cash
  | digital
deriving DecidableEq, Repr

structure Transaction where
  id : String
  date : SDate
  amount : ℚ
  type : TxType
  category : String
  note : String
  method : PayMethod
  account : Account
  status : TxStatus
  isRecurring : Bool
  recurringId : Option String
  createdAt : Nat
deriving DecidableEq, Repr

structure RecurringRule where
  id : String
  type : TxType
  category : String
  amount : ℚ
  note : String
  method : PayMethod
  account : Account
  frequency : String
  dayOfMonth : Nat
  active : Bool
  createdAt : Nat
deriving DecidableEq, Repr

/-- Per-pot budget override (Dashboard.tsx `PotConfig`); `month` is the
"YYYY-MM" scope as a (year, month) pair, `none` for a default override. -/
structure PotConfig where
  id : String
  potId : String
  limit : ℚ
  month : Option (Nat × Nat)
deriving DecidableEq, Repr

/-- Signed contribution of a transaction
(`tx.type === 'income' ? tx.amount : -tx.amount`, Dashboard.tsx line 96). -/
def signedAmount (tx : Transaction) : ℚ :=
  match tx.type with
  | .income => tx.amount
  | .expense => -tx.amount

/-! ## Actual-mode balance calculator

The `transactions.forEach` pass of Dashboard.tsx `stats` (lines 89-105). -/

structure Balances where
  bankBalance : ℚ
  cashBalance : ℚ
  debtRepaid : ℚ
deriving DecidableEq, Repr

/-- One step of the `stats` accumulation loop (Dashboard.tsx 94-105). -/
def statsStep (acc : Balances) (tx : Transaction) : Balances :=
  if tx.status = .completed then
    let amt := signedAmount tx
    let acc1 :=
      if tx.account = .bank then { acc with bankBalance := acc.bankBalance + amt }
      else { acc with cashBalance := acc.cashBalance + amt }
    if tx.category = "Rückzahlung Mama" ∧ tx.type = .expense then
      { acc1 with debtRepaid := acc1.debtRepaid + tx.amount }
    else acc1
  else acc

/-- Actual balances: bank/cash totals over completed transactions
(Dashboard.tsx `stats`, lines 89-105). -/
def computeBalances (txs : List Transaction) : Balances :=
  txs.foldl statsStep ⟨0, 0, 0⟩

/-- Contribution of one transaction to the actual bank balance. -/
def bankContrib (tx : Transaction) : ℚ :=
  if tx.status = .completed ∧ tx.account = .bank then signedAmount tx else 0

/-- Contribution of one transaction to the actual cash balance. -/
def cashContrib (tx : Transaction) : ℚ :=
  if tx.status = .completed ∧ tx.account = .cash then signedAmount tx else 0

/-! ## Rule materializer

`processRecurringRules` of db.ts (lines 304-350).  `crypto.randomUUID()`
is modeled by an id-supply `freshId` consumed in creation order, and
`Date.now()` by the parameter `nowMs`. -/

/-- The fixed simulation date of db.ts line 11:
`const SIM_DATE = new Date('2025-11-17T12:00:00')`. -/
def SIM_DATE : SDate := ⟨2025, 11, 17⟩

/-- Categories whose materialized instances start out completed
(db.ts line 331: `['Abgabe Mama', 'iPhone 13 Pro', 'iPhone 16 Pro']`). -/
def autoCompleteCategories : List String :=
  ["Abgabe Mama", "iPhone 13 Pro", "iPhone 16 Pro"]

/-- db.ts lines 317-320: skip 'Gehalt TEDi' when the reference month is
2025-11 (`currentMonthStr === '2025-11'`). -/
def ruleSkipped (now : SDate) (rule : RecurringRule) : Bool :=
  decide (rule.category = "Gehalt TEDi" ∧ now.year = 2025 ∧ now.month = 11)

/-- db.ts lines 322-325: some transaction already references this rule and
is dated in the reference month (`tx.date.startsWith(currentMonthStr)`
on "YYYY-MM-DD" strings is year/month equality). -/
def ruleInstanceExists (allTx : List Transaction) (now : SDate) (rule : RecurringRule) : Bool :=
  allTx.any fun tx =>
    decide (tx.recurringId = some rule.id ∧ tx.date.year = now.year ∧ tx.date.month = now.month)

/-- db.ts lines 328-346: the transaction built from a rule for the month
of `now`. -/
def materializeRule (now : SDate) (rule : RecurringRule) (freshId : String) (nowMs : Nat) :
    Transaction :=
  let targetDay := min rule.dayOfMonth (daysInMonth now.year now.month)
  { id := freshId
    date := ⟨now.year, now.month, targetDay⟩
    amount := rule.amount
    type := rule.type
    category := rule.category
    note := rule.note
    method := rule.method
    account := rule.account
    status := if autoCompleteCategories.contains rule.category then .completed else .pending
    isRecurring := true
    recurringId := some rule.id
    createdAt := nowMs }

/-- The `for (const rule of rules)` loop of db.ts lines 314-349, returning
the transactions it creates.  The existence check reads the snapshot
`allTx` taken before the loop (db.ts line 312); `k` counts consumed
fresh ids. -/
def processRecurringRulesGo (allTx : List Transaction) (now : SDate)
    (freshId : Nat → String) (nowMs : Nat) :
    List RecurringRule → Nat → List Transaction
  | [], _ => []
  | rule :: rest, k =>
    if rule.active = false then processRecurringRulesGo allTx now freshId nowMs rest k
    else if ruleSkipped now rule then processRecurringRulesGo allTx now freshId nowMs rest k
    else if ruleInstanceExists allTx now rule then
      processRecurringRulesGo allTx now freshId nowMs rest k
    else
      materializeRule now rule (freshId k) nowMs ::
        processRecurringRulesGo allTx now freshId nowMs rest (k + 1)

/-- db.ts `processRecurringRules` as a function of the rule list, the
transaction snapshot and the reference date: the list of newly created
transactions. -/
def processRecurringRules (rules : List RecurringRule) (allTx : List Transaction)
    (now : SDate) (freshId : Nat → String) (nowMs : Nat) : List Transaction :=
  processRecurringRulesGo allTx now freshId nowMs rules 0

/-- The materialization pass as run at initialization (db.ts lines
309-310): it receives the wall clock but ignores it, using the
hard-coded `SIM_DATE` (`const now = SIM_DATE`). -/
def processRulesAtInit (wallClock : SDate) (rules : List RecurringRule)
    (allTx : List Transaction) (freshId : Nat → String) (nowMs : Nat) : List Transaction :=
  processRecurringRules rules allTx SIM_DATE freshId nowMs

/-! ## Store update/delete

db.ts `updateTransaction` (lines 412-421) issues an IndexedDB `put`
(an upsert: replaces the record with the same key, else inserts) and
`deleteTransaction` (lines 423-432) issues an IndexedDB `delete`
(removes the key when present; succeeds either way).  The store is the
keyed record collection; `none` models an uninitialized `this.db`. -/

/-- IndexedDB `store.put(tx)` on a collection keyed by `id`. -/
def idbPut (store : List Transaction) (tx : Transaction) : List Transaction :=
  if store.any (fun t => t.id == tx.id) then
    store.map (fun t => if t.id == tx.id then tx else t)
  else store ++ [tx]

/-- IndexedDB `store.delete(id)` on a collection keyed by `id`. -/
def idbDeleteKey (store : List Transaction) (id : String) : List Transaction :=
  store.filter (fun t => t.id ≠ id)

/-- db.ts `updateTransaction` (lines 412-421). -/
def updateTransaction (db : Option (List Transaction)) (tx : Transaction) :
    Except String (List Transaction) :=
  match db with
  | none => .error "DB not initialized"
  | some store => .ok (idbPut store tx)

/-- db.ts `deleteTransaction` (lines 423-432). -/
def deleteTransaction (db : Option (List Transaction)) (id : String) :
    Except String (List Transaction) :=
  match db with
  | none => .error "DB not initialized"
  | some store => .ok (idbDeleteKey store id)

/-! ## Concrete sample data used by witnesses and counterexamples -/

/-- A deterministic id supply standing in for `crypto.randomUUID()`. -/
def demoFreshId : Nat → String := fun k => "tx-" ++ toString k

/-- The rule of spec Scenario A: Rent, 500, expense, bank, day 1, active. -/
def rentRule : RecurringRule :=
  { id := "rule-rent", type := .expense, category := "Rent", amount := 500, note := ""
    method := .digital, account := .bank, frequency := "monthly", dayOfMonth := 1
    active := true, createdAt := 0 }

/-- The transaction Scenario A must produce for March 2026. -/
def rentTx : Transaction :=
  { id := "tx-0", date := ⟨2026, 3, 1⟩, amount := 500, type := .expense, category := "Rent"
    note := "", method := .digital, account := .bank, status := .pending
    isRecurring := true, recurringId := some "rule-rent", createdAt := 0 }

/-- A rule with dayOfMonth 31 (for the February clamping boundary). -/
def day31Rule : RecurringRule :=
  { id := "rule-31", type := .expense, category := "EndOfMonth", amount := 10, note := ""
    method := .digital, account := .bank, frequency := "monthly", dayOfMonth := 31
    active := true, createdAt := 0 }

/-- A pending bank transaction (for the actual-balance witness). -/
def pendingTx : Transaction :=
  { id := "p-1", date := ⟨2025, 11, 20⟩, amount := 200, type := .expense, category := "Misc"
    note := "", method := .digital, account := .bank, status := .pending
    isRecurring := false, recurringId := none, createdAt := 0 }

/-- A completed bank income transaction. -/
def completedTx : Transaction :=
  { id := "c-1", date := ⟨2025, 11, 3⟩, amount := 1000, type := .income, category := "Pay"
    note := "", method := .digital, account := .bank, status := .completed
    isRecurring := false, recurringId := none, createdAt := 0 }

/-- A completed bank income transaction dated in a month after the
app's reference month (SIM_DATE is in 2025-11; this is 2026-01). -/
def futureCompletedTx : Transaction :=
  { id := "fut-1", date := ⟨2026, 1, 1⟩, amount := 100, type := .income, category := "Later"
    note := "", method := .digital, account := .bank, status := .completed
    isRecurring := false, recurringId := none, createdAt := 0 }

/-! ## Forecast simulator

Dashboard.tsx `permanentPositiveForecast` (lines 136-234) and
`chartData` (lines 237-324).  Both walk calendar days; future days apply
(a) active bank rules matching the day of month, (b) one-off bank
transactions dated that day, (c) pot withdrawals.  JS 0-based months are
translated to this file's 1-based months (`month === 10` is November). -/

/-- Dashboard.tsx `DEFAULT_BUDGET_POTS` (lines 19-24). -/
structure BudgetPot where
  id : String
  name : String
  limit : ℚ
  category : String
deriving DecidableEq, Repr

def DEFAULT_BUDGET_POTS : List BudgetPot :=
  [{ id := "pot_420", name := "420 (Gras)", limit := 50, category := "420" },
   { id := "pot_we", name := "Wochenende", limit := 120, category := "Wochenende" },
   { id := "pot_week", name := "Unter der Woche", limit := 120, category := "Wochentage" },
   { id := "pot_smoke", name := "Rauchen", limit := 40, category := "Rauchen" }]

/-- Dashboard.tsx `getPotLimit` (lines 58-70): month-specific override,
then default override, then hardcoded pot default, then 0. -/
def getPotLimit (potConfigs : List PotConfig) (potId : String) (d : SDate) : ℚ :=
  match potConfigs.find? (fun c => decide (c.potId = potId ∧ c.month = some (d.year, d.month))) with
  | some c => c.limit
  | none =>
    match potConfigs.find? (fun c => decide (c.potId = potId ∧ c.month = none)) with
    | some c => c.limit
    | none =>
      match DEFAULT_BUDGET_POTS.find? (fun p => decide (p.id = potId)) with
      | some p => p.limit
      | none => 0

/-- Dashboard.tsx `countWeekdaysInMonth` (lines 73-81): occurrences of a
JS weekday index in a month, floored at 1. -/
def countWeekdaysInMonth (year month dayIndex : Nat) : Nat :=
  let c := ((List.range (daysInMonth year month)).filter
    (fun k => decide (getDay ⟨year, month, k + 1⟩ = dayIndex))).length
  if 0 < c then c else 1

/-- Signed rule amount (`rule.type === 'income' ? +amount : -amount`). -/
def signedRuleAmount (rule : RecurringRule) : ℚ :=
  match rule.type with
  | .income => rule.amount
  | .expense => -rule.amount

/-- Step A of a simulated future day (Dashboard.tsx 167-176 and 272-278):
active bank rules whose dayOfMonth matches, with the Gehalt-TEDi
November-2025 skip (`year === 2025 && month === 10`). -/
def rulesDayDelta (rules : List RecurringRule) (d : SDate) : ℚ :=
  rules.foldl (fun acc rule =>
    if rule.active = true ∧ rule.account = .bank ∧ rule.dayOfMonth = d.day then
      if rule.category = "Gehalt TEDi" ∧ d.year = 2025 ∧ d.month = 11 then acc
      else acc + signedRuleAmount rule
    else acc) 0

/-- Step B in `permanentPositiveForecast` (lines 148-155, 178-185):
non-recurring bank transactions dated after `now`, applied on their date. -/
def oneTimeDayDelta (transactions : List Transaction) (now d : SDate) : ℚ :=
  transactions.foldl (fun acc tx =>
    if tx.isRecurring = false ∧ dateLt now tx.date = true ∧ tx.account = .bank ∧ tx.date = d then
      acc + signedAmount tx
    else acc) 0

/-- Step B in `chartData` (lines 280-288): non-recurring bank
transactions dated exactly on the (future) day. -/
def chartFutureOneTimeDelta (transactions : List Transaction) (d : SDate) : ℚ :=
  transactions.foldl (fun acc tx =>
    if tx.date = d ∧ tx.account = .bank ∧ tx.isRecurring = false then
      acc + signedAmount tx
    else acc) 0

/-- Pot 420: half the monthly limit on the 1st and the 15th
(Dashboard.tsx 189-193 and 291-294). -/
def pot420Delta (cfg : List PotConfig) (d : SDate) : ℚ :=
  if d.day = 1 ∨ d.day = 15 then -(getPotLimit cfg "pot_420" d / 2) else 0

/-- Weekend pot: monthly limit split over the month's Fridays
(Dashboard.tsx 195-199 and 296-299). -/
def potWeekendDelta (cfg : List PotConfig) (d : SDate) : ℚ :=
  if getDay d = 5 then
    -(getPotLimit cfg "pot_we" d / (countWeekdaysInMonth d.year d.month 5 : ℚ))
  else 0

/-- Weekday pot: monthly limit split over the month's Mondays
(Dashboard.tsx 201-204 and 301-304). -/
def potWeekdayDelta (cfg : List PotConfig) (d : SDate) : ℚ :=
  if getDay d = 1 then
    -(getPotLimit cfg "pot_week" d / (countWeekdaysInMonth d.year d.month 1 : ℚ))
  else 0

/-- Smoking pot: a quarter of the monthly limit on days 1, 8, 15, 22
(Dashboard.tsx 207-209 and 306-308). -/
def potSmokeDelta (cfg : List PotConfig) (d : SDate) : ℚ :=
  if ([1, 8, 15, 22] : List Nat).contains d.day then
    -(getPotLimit cfg "pot_smoke" d / 4)
  else 0

/-- Net balance change of one simulated future day in
`permanentPositiveForecast` (lines 167-209, applied sequentially to
`simBalance`). -/
def futureDayDelta (transactions : List Transaction) (rules : List RecurringRule)
    (cfg : List PotConfig) (now d : SDate) : ℚ :=
  rulesDayDelta rules d + oneTimeDayDelta transactions now d + pot420Delta cfg d
    + potWeekendDelta cfg d + potWeekdayDelta cfg d + potSmokeDelta cfg d

/-- Loop state of `permanentPositiveForecast`: the running balance and
the last day the balance was seen negative. -/
structure SimState where
  balance : ℚ
  lastNegativeDate : Option SDate
deriving Repr

/-- One iteration of the `for (let i = 0; i < SIM_DAYS; i++)` loop
(Dashboard.tsx 157-215): day `i` after `startSim`. -/
def simStep (transactions : List Transaction) (rules : List RecurringRule)
    (cfg : List PotConfig) (now startSim : SDate) (st : SimState) (i : Nat) : SimState :=
  let d := addDays startSim i
  let b := st.balance + futureDayDelta transactions rules cfg now d
  { balance := b, lastNegativeDate := if b < 0 then some d else st.lastNegativeDate }

/-- The three outcomes of Dashboard.tsx 217-232: 'Sofort' (immediately),
'> 5 Jahre' (not achievable within the horizon), or the stabilization
date. -/
inductive ForecastResult where
  | positive
  | impossible
  | future (stableDate : SDate)
deriving DecidableEq, Repr

/-- The bounded horizon `SIM_DAYS = 365 * SIMULATION_YEARS`
(Dashboard.tsx 137-138). -/
def SIMULATION_DAYS : Nat := 365 * 5

/-- The report block of Dashboard.tsx 217-232: null last-negative-date
means 'Sofort'; a last-negative-date at or past the last simulated day
(`startSim + SIM_DAYS - 1`) means '> 5 Jahre'; otherwise the day after
the last negative date is the stabilization date. -/
def reportFromLastNeg (startSim : SDate) (lastNeg : Option SDate) : ForecastResult :=
  match lastNeg with
  | none => .positive
  | some dn =>
    if dateLe (addDays startSim (SIMULATION_DAYS - 1)) dn then .impossible
    else .future (nextDay dn)

/-- Dashboard.tsx `permanentPositiveForecast` (lines 136-234): seed with
the actual bank balance (`simBalance = stats.bankBalance`, initially
negative balances record `now` as last negative date), simulate
`SIMULATION_DAYS` days starting the day after `now` (`startSim`), then
report from the final `lastNegativeDate`. -/
def permanentPositiveForecast (transactions : List Transaction) (rules : List RecurringRule)
    (cfg : List PotConfig) (now : SDate) : ForecastResult :=
  reportFromLastNeg (nextDay now)
    ((List.range SIMULATION_DAYS).foldl
      (simStep transactions rules cfg now (nextDay now))
      ⟨(computeBalances transactions).bankBalance,
        if (computeBalances transactions).bankBalance < 0 then some now
        else none⟩).lastNegativeDate

/-- The simulated balance after `k` days (`k = 0` is the seed balance at
simulation start; day `i` of the loop yields `k = i + 1`). -/
def simBalanceAt (transactions : List Transaction) (rules : List RecurringRule)
    (cfg : List PotConfig) (now : SDate) (k : Nat) : ℚ :=
  (computeBalances transactions).bankBalance +
    ((List.range k).map
      (fun i => futureDayDelta transactions rules cfg now (addDays (nextDay now) i))).sum

/-- One point of the chart series (Dashboard.tsx 314-321; the two
locale-formatted display strings are derived from `fullDate` and
carry no further information). -/
structure ChartPoint where
  fullDate : SDate
  balance : ℚ
  isFuture : Bool
deriving DecidableEq, Repr

/-- Historical-day contribution in `chartData` (lines 260-265):
completed bank transactions dated exactly that day.  (The source reads
them from a date-sorted copy; a fold total does not depend on the
order.) -/
def histDayDelta (transactions : List Transaction) (d : SDate) : ℚ :=
  transactions.foldl (fun acc tx =>
    if tx.date = d ∧ tx.account = .bank ∧ tx.status = .completed then
      acc + signedAmount tx
    else acc) 0

/-- The seed of `chartData` (lines 246-253): completed bank transactions
dated strictly before the window start. -/
def preBalance (transactions : List Transaction) (startDate : SDate) : ℚ :=
  transactions.foldl (fun acc tx =>
    if tx.status = .completed ∧ tx.account = .bank ∧ dateLt tx.date startDate = true then
      acc + signedAmount tx
    else acc) 0

/-- Net balance change of one chart day (lines 256-309): historical days
replay completed bank transactions; future days apply rules, scheduled
one-offs and pot draws. -/
def chartDayDelta (transactions : List Transaction) (rules : List RecurringRule)
    (cfg : List PotConfig) (now d : SDate) : ℚ :=
  if dateLt now d = true then
    rulesDayDelta rules d + chartFutureOneTimeDelta transactions d + pot420Delta cfg d
      + potWeekendDelta cfg d + potWeekdayDelta cfg d + potSmokeDelta cfg d
  else histDayDelta transactions d

/-- Dashboard.tsx `chartData` (lines 237-324).  `clock` is the stream of
`new Date()` reads; the single read `const now = new Date()` (line 238)
is `clock 0`, and the day loop performs no further reads.  The loop
`for (d = startDate; d <= endDate; d.setDate(+1))` runs
`toRD endDate + 1 - toRD startDate` iterations (zero when the end lies
before the start). -/
def chartData (transactions : List Transaction) (rules : List RecurringRule)
    (cfg : List PotConfig) (forecastDate : SDate) (clock : Nat → SDate) : List ChartPoint :=
  let now := clock 0
  let startDate : SDate := ⟨now.year, now.month, 1⟩
  let numDays := toRD forecastDate + 1 - toRD startDate
  ((List.range numDays).foldl
    (fun (acc : ℚ × List ChartPoint) i =>
      let d := addDays startDate i
      let b := acc.1 + chartDayDelta transactions rules cfg now d
      (b, acc.2 ++ [⟨d, b, dateLt now d⟩]))
    (preBalance transactions startDate, [])).2

/-- The days of a calendar month, in order. -/
def monthDates (y m : Nat) : List SDate :=
  (List.range (daysInMonth y m)).map (fun k => ⟨y, m, k + 1⟩)

/-- Pot configs that override every pot to a zero limit (used by a
witness to silence the simulated pot draws). -/
def zeroPotConfigs : List PotConfig :=
  [{ id := "z420", potId := "pot_420", limit := 0, month := none },
   { id := "zwe", potId := "pot_we", limit := 0, month := none },
   { id := "zweek", potId := "pot_week", limit := 0, month := none },
   { id := "zsmoke", potId := "pot_smoke", limit := 0, month := none }]

/-- A completed bank expense dated before SIM_DATE (so it seeds the
simulation balance at -100 and is never a future one-off). -/
def debtTx : Transaction :=
  { id := "d-1", date := ⟨2025, 11, 1⟩, amount := 100, type := .expense, category := "Debt"
    note := "", method := .digital, account := .bank, status := .completed
    isRecurring := false, recurringId := none, createdAt := 0 }

/-- A clock stream that always answers SIM_DATE. -/
def clockA : Nat → SDate := fun _ => SIM_DATE

/-- A clock stream that answers SIM_DATE only on the first read. -/
def clockB : Nat → SDate := fun n => if n = 0 then SIM_DATE else ⟨1999, 1, 1⟩

/-! ### Theorems -/

/-! Calendar lemmas: `nextDay` preserves validity and advances the
rata-die number by exactly one. -/

theorem isLeap_iff (y : Nat) :
    isLeap y = true ↔ ((y % 4 = 0 ∧ ¬ y % 100 = 0) ∨ y % 400 = 0) := by
  simp [isLeap, Nat.beq_eq_true_eq, Bool.or_eq_true, Bool.and_eq_true]

theorem daysInMonth_pos (y m : Nat) : 1 ≤ daysInMonth y m := by
  unfold daysInMonth
  split <;> [skip; split] <;> (try split) <;> omega

theorem daysInMonth_bounds (y m : Nat) (hm1 : 1 ≤ m) (hm2 : m ≤ 12) :
    28 ≤ daysInMonth y m ∧ daysInMonth y m ≤ 31 := by
  clear hm1 hm2
  unfold daysInMonth
  split <;> [skip; split] <;> (try split) <;> omega

theorem nextDay_valid (d : SDate) (h : d.Valid) : (nextDay d).Valid := by
  obtain ⟨y, m, dd⟩ := d
  obtain ⟨hy, hm1, hm2, hd1, hd2⟩ := h
  dsimp only at hy hm1 hm2 hd1 hd2
  have h2 := daysInMonth_pos y (m + 1)
  have h3 := daysInMonth_pos (y + 1) 1
  unfold nextDay
  dsimp only
  split
  · dsimp only [SDate.Valid]
    omega
  · split
    · dsimp only [SDate.Valid]
      omega
    · dsimp only [SDate.Valid]
      omega

theorem daysBeforeMonth_succ (y m : Nat) (h : 1 ≤ m) :
    daysBeforeMonth y (m + 1) = daysBeforeMonth y m + daysInMonth y m := by
  obtain ⟨k, rfl⟩ : ∃ k, m = k + 1 := ⟨m - 1, by omega⟩
  rfl

theorem daysBeforeMonth_twelve (y : Nat) :
    daysBeforeMonth y 12 = 334 + (if isLeap y then 1 else 0) := by
  show daysBeforeMonth y 12 = _
  simp only [daysBeforeMonth, daysInMonth]
  norm_num
  split <;> omega

theorem toRD_nextDay (d : SDate) (h : d.Valid) :
    toRD (nextDay d) = toRD d + 1 := by
  obtain ⟨y, m, dd⟩ := d
  obtain ⟨hy, hm1, hm2, hd1, hd2⟩ := h
  dsimp only at hy hm1 hm2 hd1 hd2
  unfold nextDay
  dsimp only
  split
  · dsimp only [toRD]
    omega
  · rename_i hlt
    split
    · rename_i hm12
      dsimp only [toRD]
      rw [daysBeforeMonth_succ y m hm1]
      omega
    · rename_i hm12
      have hm : m = 12 := by omega
      subst hm
      have hdim : daysInMonth y 12 = 31 := by norm_num [daysInMonth]
      have hday : dd = 31 := by omega
      subst hday
      dsimp only [toRD]
      rw [daysBeforeMonth_twelve]
      have hdb : daysBeforeMonth (y + 1) 1 = 0 := rfl
      rw [hdb]
      cases hL : isLeap y with
      | false =>
        have hP : ¬ ((y % 4 = 0 ∧ ¬ y % 100 = 0) ∨ y % 400 = 0) := by
          rw [← isLeap_iff]
          simp [hL]
        rw [if_neg (by simp [hL])]
        omega
      | true =>
        have hP := (isLeap_iff y).mp hL
        rw [if_pos rfl]
        omega

theorem addDays_valid (d : SDate) (h : d.Valid) (n : Nat) : (addDays d n).Valid := by
  induction n with
  | zero => exact h
  | succ k ih => exact nextDay_valid _ ih

theorem toRD_addDays (d : SDate) (h : d.Valid) (n : Nat) :
    toRD (addDays d n) = toRD d + n := by
  induction n with
  | zero => rfl
  | succ k ih =>
    show toRD (nextDay (addDays d k)) = _
    rw [toRD_nextDay _ (addDays_valid d h k), ih]
    omega

/-! Balance calculator lemmas. -/

theorem statsStep_bank (acc : Balances) (tx : Transaction) :
    (statsStep acc tx).bankBalance = acc.bankBalance + bankContrib tx := by
  unfold statsStep bankContrib
  rcases tx with ⟨i, da, a, ty, c, no, me, ac, st, r, ri, ca⟩
  rcases st <;> rcases ac <;> simp [signedAmount] <;> split <;> simp

theorem statsStep_cash (acc : Balances) (tx : Transaction) :
    (statsStep acc tx).cashBalance = acc.cashBalance + cashContrib tx := by
  unfold statsStep cashContrib
  rcases tx with ⟨i, da, a, ty, c, no, me, ac, st, r, ri, ca⟩
  rcases st <;> rcases ac <;> simp [signedAmount] <;> split <;> simp

theorem foldl_statsStep_bank (txs : List Transaction) (acc : Balances) :
    (txs.foldl statsStep acc).bankBalance
      = acc.bankBalance + (txs.map bankContrib).sum := by
  induction txs generalizing acc with
  | nil => simp
  | cons t ts ih =>
    simp only [List.foldl_cons, List.map_cons, List.sum_cons, ih, statsStep_bank]
    ring

theorem foldl_statsStep_cash (txs : List Transaction) (acc : Balances) :
    (txs.foldl statsStep acc).cashBalance
      = acc.cashBalance + (txs.map cashContrib).sum := by
  induction txs generalizing acc with
  | nil => simp
  | cons t ts ih =>
    simp only [List.foldl_cons, List.map_cons, List.sum_cons, ih, statsStep_cash]
    ring

theorem computeBalances_bank (txs : List Transaction) :
    (computeBalances txs).bankBalance = (txs.map bankContrib).sum := by
  unfold computeBalances
  rw [foldl_statsStep_bank]
  simp

theorem computeBalances_cash (txs : List Transaction) :
    (computeBalances txs).cashBalance = (txs.map cashContrib).sum := by
  unfold computeBalances
  rw [foldl_statsStep_cash]
  simp

/-! Materializer lemmas. -/

theorem mem_processRecurringRulesGo (allTx : List Transaction) (now : SDate)
    (freshId : Nat → String) (nowMs : Nat) :
    ∀ (rules : List RecurringRule) (k : Nat) (tx : Transaction),
      tx ∈ processRecurringRulesGo allTx now freshId nowMs rules k →
      ∃ rule ∈ rules, rule.active = true ∧ ruleSkipped now rule = false ∧
        ruleInstanceExists allTx now rule = false ∧
        ∃ j, tx = materializeRule now rule (freshId j) nowMs := by
  intro rules
  induction rules with
  | nil =>
    intro k tx h
    simp [processRecurringRulesGo] at h
  | cons r rest ih =>
    intro k tx h
    unfold processRecurringRulesGo at h
    split at h
    · obtain ⟨rule, hmem, hrest⟩ := ih k tx h
      exact ⟨rule, List.mem_cons_of_mem _ hmem, hrest⟩
    · rename_i hact
      split at h
      · obtain ⟨rule, hmem, hrest⟩ := ih k tx h
        exact ⟨rule, List.mem_cons_of_mem _ hmem, hrest⟩
      · rename_i hskip
        split at h
        · obtain ⟨rule, hmem, hrest⟩ := ih k tx h
          exact ⟨rule, List.mem_cons_of_mem _ hmem, hrest⟩
        · rename_i hex
          rcases List.mem_cons.mp h with heq | hmem
          · refine ⟨r, List.mem_cons_self r rest, ?_, ?_, ?_, k, heq⟩
            · cases hr : r.active with
              | false => exact absurd hr hact
              | true => rfl
            · simpa using hskip
            · simpa using hex
          · obtain ⟨rule, hmem2, hrest⟩ := ih (k + 1) tx hmem
            exact ⟨rule, List.mem_cons_of_mem _ hmem2, hrest⟩

theorem materialized_exists (allTx : List Transaction) (now : SDate)
    (freshId : Nat → String) (nowMs : Nat) :
    ∀ (rules : List RecurringRule) (k : Nat) (rule : RecurringRule),
      rule ∈ rules → rule.active = true → ruleSkipped now rule = false →
      ruleInstanceExists allTx now rule = false →
      ∃ tx ∈ processRecurringRulesGo allTx now freshId nowMs rules k,
        tx.recurringId = some rule.id ∧ tx.date.year = now.year ∧ tx.date.month = now.month := by
  intro rules
  induction rules with
  | nil =>
    intro k rule hmem
    exact absurd hmem (List.not_mem_nil rule)
  | cons r rest ih =>
    intro k rule hmem hact hskip hex
    rcases List.mem_cons.mp hmem with heq | hmem2
    · subst heq
      unfold processRecurringRulesGo
      rw [if_neg (by simp [hact]), if_neg (by simp [hskip]), if_neg (by simp [hex])]
      exact ⟨materializeRule now rule (freshId k) nowMs, List.mem_cons_self _ _, rfl, rfl, rfl⟩
    · unfold processRecurringRulesGo
      split
      · exact ih k rule hmem2 hact hskip hex
      · split
        · exact ih k rule hmem2 hact hskip hex
        · split
          · exact ih k rule hmem2 hact hskip hex
          · obtain ⟨tx, htx, hprops⟩ := ih (k + 1) rule hmem2 hact hskip hex
            exact ⟨tx, List.mem_cons_of_mem _ htx, hprops⟩

theorem processGo_eq_nil (allTx : List Transaction) (now : SDate)
    (freshId : Nat → String) (nowMs : Nat) :
    ∀ (rules : List RecurringRule) (k : Nat),
      (∀ rule ∈ rules, rule.active = false ∨ ruleSkipped now rule = true ∨
        ruleInstanceExists allTx now rule = true) →
      processRecurringRulesGo allTx now freshId nowMs rules k = [] := by
  intro rules
  induction rules with
  | nil =>
    intro k _
    rfl
  | cons r rest ih =>
    intro k hall
    have htail : ∀ rule ∈ rest, rule.active = false ∨ ruleSkipped now rule = true ∨
        ruleInstanceExists allTx now rule = true :=
      fun rule hm => hall rule (List.mem_cons_of_mem _ hm)
    unfold processRecurringRulesGo
    by_cases hact : r.active = false
    · rw [if_pos hact]
      exact ih k htail
    · rw [if_neg hact]
      by_cases hskip : ruleSkipped now r = true
      · rw [if_pos hskip]
        exact ih k htail
      · rw [if_neg hskip]
        have hex : ruleInstanceExists allTx now r = true := by
          rcases hall r (List.mem_cons_self r rest) with h | h | h
          · exact absurd h hact
          · exact absurd h hskip
          · exact h
        rw [if_pos hex]
        exact ih k htail

/-! ### Claim theorems -/

/-- C1: Rule materialization is idempotent: running the pass a second time
over the state extended by the first run's output creates zero new
transactions — for each rule that materialized, an instance with its
`recurringId` dated in the reference month now exists and the duplicate
is skipped as a no-op (an empty creation list, not an error). -/
theorem c1_materialization_idempotent (rules : List RecurringRule) (allTx : List Transaction)
    (now : SDate) (f1 f2 : Nat → String) (ms1 ms2 : Nat) :
    processRecurringRules rules (allTx ++ processRecurringRules rules allTx now f1 ms1)
      now f2 ms2 = [] := by
  apply processGo_eq_nil
  intro rule hmem
  by_cases hact : rule.active = false
  · exact Or.inl hact
  · by_cases hskip : ruleSkipped now rule = true
    · exact Or.inr (Or.inl hskip)
    · refine Or.inr (Or.inr ?_)
      unfold ruleInstanceExists
      rw [List.any_append]
      by_cases hex : ruleInstanceExists allTx now rule = true
      · unfold ruleInstanceExists at hex
        rw [hex]
        rfl
      · have hex2 : ruleInstanceExists allTx now rule = false := by simpa using hex
        obtain ⟨tx, htx, hid, hy, hm⟩ :=
          materialized_exists allTx now f1 ms1 rules 0 rule hmem
            (by simpa using hact) (by simpa using hskip) hex2
        have hsnd : (processRecurringRules rules allTx now f1 ms1).any
            (fun tx => decide (tx.recurringId = some rule.id ∧
              tx.date.year = now.year ∧ tx.date.month = now.month)) = true :=
          List.any_eq_true.mpr ⟨tx, htx, by
            simp only [decide_eq_true_eq]
            exact ⟨hid, hy, hm⟩⟩
        rw [hsnd]
        simp

/-- C2: The actual-mode balance counts only completed transactions:
inserting (or removing) a pending transaction anywhere leaves both the
bank and cash balances unchanged, and each completed transaction
contributes +amount (income) or -amount (expense) to the balance of its
account. -/
theorem c2_actual_mode_completed_only :
    (∀ (pre post : List Transaction) (tx : Transaction), tx.status = .pending →
        (computeBalances (pre ++ tx :: post)).bankBalance
            = (computeBalances (pre ++ post)).bankBalance ∧
        (computeBalances (pre ++ tx :: post)).cashBalance
            = (computeBalances (pre ++ post)).cashBalance) ∧
    (∀ (txs : List Transaction) (tx : Transaction), tx.status = .completed →
        (computeBalances (txs ++ [tx])).bankBalance
            = (computeBalances txs).bankBalance +
              (if tx.account = .bank then
                (if tx.type = .income then tx.amount else -tx.amount) else 0) ∧
        (computeBalances (txs ++ [tx])).cashBalance
            = (computeBalances txs).cashBalance +
              (if tx.account = .cash then
                (if tx.type = .income then tx.amount else -tx.amount) else 0)) := by
  constructor
  · intro pre post tx hpend
    have h0b : bankContrib tx = 0 := by
      unfold bankContrib
      rw [if_neg]
      rintro ⟨hc, -⟩
      rw [hpend] at hc
      exact TxStatus.noConfusion hc
    have h0c : cashContrib tx = 0 := by
      unfold cashContrib
      rw [if_neg]
      rintro ⟨hc, -⟩
      rw [hpend] at hc
      exact TxStatus.noConfusion hc
    constructor
    · rw [computeBalances_bank, computeBalances_bank]
      simp only [List.map_append, List.map_cons, List.sum_append, List.sum_cons, h0b]
      ring
    · rw [computeBalances_cash, computeBalances_cash]
      simp only [List.map_append, List.map_cons, List.sum_append, List.sum_cons, h0c]
      ring
  · intro txs tx hcomp
    have hb : bankContrib tx = (if tx.account = .bank then
        (if tx.type = .income then tx.amount else -tx.amount) else 0) := by
      unfold bankContrib signedAmount
      by_cases hacc : tx.account = .bank
      · rw [if_pos ⟨hcomp, hacc⟩, if_pos hacc]
        cases htyp : tx.type <;> simp [htyp]
      · rw [if_neg (fun h => hacc h.2), if_neg hacc]
    have hc : cashContrib tx = (if tx.account = .cash then
        (if tx.type = .income then tx.amount else -tx.amount) else 0) := by
      unfold cashContrib signedAmount
      by_cases hacc : tx.account = .cash
      · rw [if_pos ⟨hcomp, hacc⟩, if_pos hacc]
        cases htyp : tx.type <;> simp [htyp]
      · rw [if_neg (fun h => hacc h.2), if_neg hacc]
    constructor
    · rw [computeBalances_bank, computeBalances_bank]
      simp only [List.map_append, List.map_cons, List.map_nil, List.sum_append,
        List.sum_cons, List.sum_nil, hb]
      ring
    · rw [computeBalances_cash, computeBalances_cash]
      simp only [List.map_append, List.map_cons, List.map_nil, List.sum_append,
        List.sum_cons, List.sum_nil, hc]
      ring

/-- C2 witness: a concrete pending transaction leaves the balances
unchanged and a concrete completed income of 1000 adds 1000 to the bank
balance. -/
theorem c2_witness :
    ((computeBalances ([completedTx] ++ pendingTx :: [])).bankBalance
        = (computeBalances ([completedTx] ++ [])).bankBalance ∧
      (computeBalances ([completedTx] ++ pendingTx :: [])).cashBalance
        = (computeBalances ([completedTx] ++ [])).cashBalance) ∧
    ((computeBalances ([] ++ [completedTx])).bankBalance
        = (computeBalances []).bankBalance +
          (if completedTx.account = .bank then
            (if completedTx.type = .income then completedTx.amount else -completedTx.amount)
          else 0) ∧
      (computeBalances ([] ++ [completedTx])).cashBalance
        = (computeBalances []).cashBalance +
          (if completedTx.account = .cash then
            (if completedTx.type = .income then completedTx.amount else -completedTx.amount)
          else 0)) :=
  ⟨c2_actual_mode_completed_only.1 [completedTx] [] pendingTx rfl,
   c2_actual_mode_completed_only.2 [] completedTx rfl⟩

/-- C3 counterexample: the actual-mode balance pass applies no date
filter, so a completed bank transaction dated 2026-01 (a month after the
app's reference month 2025-11) changes the bank balance — contradicting
the claim that future-month transactions contribute nothing. -/
theorem c3_counterexample :
    futureCompletedTx.status = .completed ∧
    SIM_DATE.year = 2025 ∧ SIM_DATE.month = 11 ∧
    futureCompletedTx.date.year = 2026 ∧ futureCompletedTx.date.month = 1 ∧
    (computeBalances [futureCompletedTx]).bankBalance = 100 ∧
    (computeBalances []).bankBalance = 0 ∧
    (computeBalances [futureCompletedTx]).bankBalance
      ≠ (computeBalances []).bankBalance := by
  have h1 : (computeBalances [futureCompletedTx]).bankBalance = 100 := by
    rw [computeBalances_bank]
    simp [bankContrib, futureCompletedTx, signedAmount]
  have h2 : (computeBalances []).bankBalance = 0 := by
    rw [computeBalances_bank]
    simp
  refine ⟨rfl, rfl, rfl, rfl, rfl, h1, h2, ?_⟩
  rw [h1, h2]
  norm_num

/-- C3 amended: the balance calculation performs no future-month
exclusion in actual mode — it never reads transaction dates at all, so a
completed transaction contributes its full signed amount no matter which
month it is dated in. -/
theorem c3_amended_no_date_filter :
    ∀ (txs : List Transaction) (f : Transaction → SDate),
      computeBalances (txs.map (fun t => { t with date := f t })) = computeBalances txs := by
  intro txs f
  unfold computeBalances
  generalize (⟨0, 0, 0⟩ : Balances) = acc
  induction txs generalizing acc with
  | nil => rfl
  | cons t ts ih =>
    simp only [List.map_cons, List.foldl_cons]
    have hstep : statsStep acc { t with date := f t } = statsStep acc t := rfl
    rw [hstep]
    exact ih _

/-- C4: every materialized transaction is dated at
min(rule.dayOfMonth, last day of the reference month); in particular a
dayOfMonth-31 rule materialized in February is dated the 28th, or the
29th in a leap year. -/
theorem c4_day_clamped :
    ∀ (rules : List RecurringRule) (allTx : List Transaction) (now : SDate)
      (freshId : Nat → String) (nowMs : Nat) (tx : Transaction),
      tx ∈ processRecurringRules rules allTx now freshId nowMs →
      ∃ rule ∈ rules, tx.recurringId = some rule.id ∧
        tx.date.day = min rule.dayOfMonth (daysInMonth now.year now.month) ∧
        (now.month = 2 → rule.dayOfMonth = 31 →
          tx.date.day = if isLeap now.year then 29 else 28) := by
  intro rules allTx now f ms tx h
  obtain ⟨rule, hmem, hact, hskip, hex, j, rfl⟩ :=
    mem_processRecurringRulesGo allTx now f ms rules 0 tx h
  refine ⟨rule, hmem, rfl, rfl, ?_⟩
  intro h2 h31
  show min rule.dayOfMonth (daysInMonth now.year now.month) = _
  rw [h2, h31]
  unfold daysInMonth
  rw [if_pos rfl]
  cases isLeap now.year <;> simp

/-- C4 witness: the dayOfMonth-31 rule materialized for February 2026
(not a leap year) yields a transaction dated the 28th. -/
theorem c4_witness :
    ∃ rule ∈ [day31Rule],
      (materializeRule ⟨2026, 2, 10⟩ day31Rule (demoFreshId 0) 0).recurringId = some rule.id ∧
      (materializeRule ⟨2026, 2, 10⟩ day31Rule (demoFreshId 0) 0).date.day
        = min rule.dayOfMonth (daysInMonth (SDate.mk 2026 2 10).year (SDate.mk 2026 2 10).month) ∧
      ((SDate.mk 2026 2 10).month = 2 → rule.dayOfMonth = 31 →
        (materializeRule ⟨2026, 2, 10⟩ day31Rule (demoFreshId 0) 0).date.day
          = if isLeap (SDate.mk 2026 2 10).year then 29 else 28) :=
  c4_day_clamped [day31Rule] [] ⟨2026, 2, 10⟩ demoFreshId 0
    (materializeRule ⟨2026, 2, 10⟩ day31Rule (demoFreshId 0) 0) (by decide)

/-- C5: every materialized transaction copies type, category, amount,
note, method and account from its rule, carries isRecurring and
recurringId, and starts pending unless the rule category is in the
auto-complete set; concretely, the Rent rule materialized for March 2026
over an empty store yields exactly one pending 500 transaction dated the
1st. -/
theorem c5_materialized_shape :
    (∀ (rules : List RecurringRule) (allTx : List Transaction) (now : SDate)
        (freshId : Nat → String) (nowMs : Nat) (tx : Transaction),
        tx ∈ processRecurringRules rules allTx now freshId nowMs →
        ∃ rule ∈ rules, tx.type = rule.type ∧ tx.category = rule.category ∧
          tx.amount = rule.amount ∧ tx.note = rule.note ∧ tx.method = rule.method ∧
          tx.account = rule.account ∧ tx.isRecurring = true ∧
          tx.recurringId = some rule.id ∧
          tx.status = (if autoCompleteCategories.contains rule.category then
            TxStatus.completed else TxStatus.pending)) ∧
    processRecurringRules [rentRule] [] ⟨2026, 3, 17⟩ demoFreshId 0 = [rentTx] := by
  constructor
  · intro rules allTx now f ms tx h
    obtain ⟨rule, hmem, hact, hskip, hex, j, rfl⟩ :=
      mem_processRecurringRulesGo allTx now f ms rules 0 tx h
    exact ⟨rule, hmem, rfl, rfl, rfl, rfl, rfl, rfl, rfl, rfl, rfl⟩
  · decide

/-- C5 witness: the universal part applied to the concrete Rent scenario. -/
theorem c5_witness :
    ∃ rule ∈ [rentRule], rentTx.type = rule.type ∧ rentTx.category = rule.category ∧
      rentTx.amount = rule.amount ∧ rentTx.note = rule.note ∧ rentTx.method = rule.method ∧
      rentTx.account = rule.account ∧ rentTx.isRecurring = true ∧
      rentTx.recurringId = some rule.id ∧
      rentTx.status = (if autoCompleteCategories.contains rule.category then
        TxStatus.completed else TxStatus.pending) :=
  c5_materialized_shape.1 [rentRule] [] ⟨2026, 3, 17⟩ demoFreshId 0 rentTx (by decide)

/-- C9 counterexample: with an id not present in the store,
`updateTransaction` succeeds (inserting via upsert) and
`deleteTransaction` succeeds as a no-op — neither rejects with a
NotFound error, and update does change the store. -/
theorem c9_counterexample :
    (([] : List Transaction).map Transaction.id).contains pendingTx.id = false ∧
    updateTransaction (some []) pendingTx = .ok [pendingTx] ∧
    deleteTransaction (some []) "missing-id" = .ok [] := by
  refine ⟨rfl, rfl, rfl⟩

/-- C9 amended: update/delete on an id absent from the store do not
surface NotFound: update succeeds and appends the record (IndexedDB
`put` upsert), delete succeeds and leaves the store unchanged; only an
uninitialized database rejects. -/
theorem c9_update_delete_unknown_id :
    (∀ (store : List Transaction) (tx : Transaction), (∀ t ∈ store, t.id ≠ tx.id) →
        updateTransaction (some store) tx = .ok (store ++ [tx])) ∧
    (∀ (store : List Transaction) (id : String), (∀ t ∈ store, t.id ≠ id) →
        deleteTransaction (some store) id = .ok store) ∧
    (∀ (tx : Transaction), updateTransaction none tx = .error "DB not initialized") ∧
    (∀ (id : String), deleteTransaction none id = .error "DB not initialized") := by
  refine ⟨?_, ?_, fun _ => rfl, fun _ => rfl⟩
  · intro store tx habs
    show Except.ok (idbPut store tx) = _
    unfold idbPut
    rw [if_neg]
    intro hany
    obtain ⟨t, htm, hteq⟩ := List.any_eq_true.mp hany
    exact habs t htm (by simpa using hteq)
  · intro store id habs
    show Except.ok (idbDeleteKey store id) = _
    unfold idbDeleteKey
    congr 1
    apply List.filter_eq_self.mpr
    intro t htm
    simpa using habs t htm

/-- C9 witness: concrete store with one record, unknown ids. -/
theorem c9_witness :
    updateTransaction (some [completedTx]) pendingTx = .ok ([completedTx] ++ [pendingTx]) ∧
    deleteTransaction (some [completedTx]) "ghost" = .ok [completedTx] :=
  ⟨c9_update_delete_unknown_id.1 [completedTx] pendingTx (by decide),
   c9_update_delete_unknown_id.2.1 [completedTx] "ghost" (by decide)⟩

/-- C10: the initialization pass ignores the wall clock and uses the
hard-coded SIM_DATE (2025-11-17): whatever time initialization runs,
every created transaction is dated in calendar month 2025-11, and no
created transaction has category "Gehalt TEDi" (that rule is skipped
for that month). -/
theorem c10_sim_date_fixed :
    ∀ (wallClock : SDate) (rules : List RecurringRule) (allTx : List Transaction)
      (freshId : Nat → String) (nowMs : Nat) (tx : Transaction),
      tx ∈ processRulesAtInit wallClock rules allTx freshId nowMs →
      tx.date.year = 2025 ∧ tx.date.month = 11 ∧ tx.category ≠ "Gehalt TEDi" := by
  intro wc rules allTx f ms tx h
  obtain ⟨rule, hmem, hact, hskip, hex, j, rfl⟩ :=
    mem_processRecurringRulesGo allTx SIM_DATE f ms rules 0 tx h
  refine ⟨rfl, rfl, ?_⟩
  intro hcat
  have hsk : ruleSkipped SIM_DATE rule = true := by
    unfold ruleSkipped
    simp only [decide_eq_true_eq]
    exact ⟨hcat, rfl, rfl⟩
  rw [hsk] at hskip
  exact Bool.noConfusion hskip

/-- C10 witness: initialization run at an arbitrary wall-clock date
(1999-01-01) still dates the Rent instance in 2025-11. -/
theorem c10_witness :
    (materializeRule SIM_DATE rentRule (demoFreshId 0) 0).date.year = 2025 ∧
    (materializeRule SIM_DATE rentRule (demoFreshId 0) 0).date.month = 11 ∧
    (materializeRule SIM_DATE rentRule (demoFreshId 0) 0).category ≠ "Gehalt TEDi" :=
  c10_sim_date_fixed ⟨1999, 1, 1⟩ [rentRule] [] demoFreshId 0
    (materializeRule SIM_DATE rentRule (demoFreshId 0) 0) (by decide)

/-- C8: the chart simulation is deterministic and captures 'today' once:
two runs over identical transactions, rules, pot configs and forecast
end date whose clock streams agree on the single initial read (line 238)
produce the same balance series point for point — the day loop performs
no further clock reads and no randomness enters. -/
theorem c8_chart_deterministic (transactions : List Transaction) (rules : List RecurringRule)
    (cfg : List PotConfig) (forecastDate : SDate) (clock1 clock2 : Nat → SDate)
    (h : clock1 0 = clock2 0) :
    chartData transactions rules cfg forecastDate clock1
      = chartData transactions rules cfg forecastDate clock2 := by
  unfold chartData
  rw [h]

/-- C8 witness: two concrete clock streams that agree only on the first
read give identical series. -/
theorem c8_witness :
    clockA 0 = clockB 0 ∧
    chartData [] [] [] ⟨2025, 11, 30⟩ clockA = chartData [] [] [] ⟨2025, 11, 30⟩ clockB :=
  ⟨rfl, c8_chart_deterministic [] [] [] ⟨2025, 11, 30⟩ clockA clockB rfl⟩

/-! Pot lemmas. -/

theorem getPotLimit_month_only (cfg : List PotConfig) (pid : String) (d e : SDate)
    (hy : d.year = e.year) (hm : d.month = e.month) :
    getPotLimit cfg pid d = getPotLimit cfg pid e := by
  unfold getPotLimit
  simp only [hy, hm]

theorem sum_map_ite_count {α : Type} (l : List α) (p : α → Bool) (c : ℚ) :
    (l.map (fun a => if p a = true then c else 0)).sum = (l.countP p : ℚ) * c := by
  induction l with
  | nil => simp
  | cons a t ih =>
    simp only [List.map_cons, List.sum_cons, List.countP_cons, ih]
    by_cases h : p a = true
    · rw [if_pos h, if_pos h]
      push_cast
      ring
    · rw [if_neg h, if_neg h]
      push_cast
      ring

theorem smoke_trigger_count : ∀ D, 28 ≤ D → D ≤ 31 →
    (List.range D).countP (fun k => ([1, 8, 15, 22] : List Nat).contains (k + 1)) = 4 := by
  intro D h1 h2
  interval_cases D <;> decide

/-- C7: the smoking pot's monthly limit is apportioned evenly over its
four trigger days: every month has exactly four days with day-of-month
in {1, 8, 15, 22}, each such day withdraws exactly a quarter of the
resolved monthly limit, other days withdraw nothing, and the month's
total smoking-pot withdrawal is the full limit (four drawings of L/4
rather than one of L). -/
theorem c7_smoking_pot_quartered (cfg : List PotConfig) (y m : Nat)
    (hm1 : 1 ≤ m) (hm2 : m ≤ 12) :
    ((monthDates y m).filter (fun d => ([1, 8, 15, 22] : List Nat).contains d.day)).length = 4 ∧
    (∀ d ∈ monthDates y m, (([1, 8, 15, 22] : List Nat).contains d.day) = true →
      potSmokeDelta cfg d = -(getPotLimit cfg "pot_smoke" ⟨y, m, 1⟩ / 4)) ∧
    (∀ d ∈ monthDates y m, (([1, 8, 15, 22] : List Nat).contains d.day) = false →
      potSmokeDelta cfg d = 0) ∧
    ((monthDates y m).map (potSmokeDelta cfg)).sum
      = -(getPotLimit cfg "pot_smoke" ⟨y, m, 1⟩) := by
  obtain ⟨h28, h31⟩ := daysInMonth_bounds y m hm1 hm2
  have hdate : ∀ d ∈ monthDates y m, d.year = y ∧ d.month = m := by
    intro d hd
    obtain ⟨k, hk, rfl⟩ := List.mem_map.mp hd
    exact ⟨rfl, rfl⟩
  have hptw : ∀ d ∈ monthDates y m, potSmokeDelta cfg d =
      (if (([1, 8, 15, 22] : List Nat).contains d.day) = true
        then -(getPotLimit cfg "pot_smoke" ⟨y, m, 1⟩ / 4) else 0) := by
    intro d hd
    obtain ⟨hyy, hmm⟩ := hdate d hd
    unfold potSmokeDelta
    rw [getPotLimit_month_only cfg "pot_smoke" d ⟨y, m, 1⟩ hyy hmm]
  have hcnt : (monthDates y m).countP
      (fun d => ([1, 8, 15, 22] : List Nat).contains d.day) = 4 := by
    unfold monthDates
    rw [List.countP_map]
    exact smoke_trigger_count _ h28 h31
  refine ⟨?_, ?_, ?_, ?_⟩
  · rw [← List.countP_eq_length_filter]
    exact hcnt
  · intro d hd htr
    rw [hptw d hd, if_pos htr]
  · intro d hd htr
    rw [hptw d hd, if_neg]
    intro hh
    rw [htr] at hh
    exact Bool.noConfusion hh
  · rw [List.map_congr_left hptw, sum_map_ite_count, hcnt]
    push_cast
    ring

/-- C7 witness: with no overrides the smoking limit resolves to 40, a
concrete month (December 2025) has exactly four trigger days, its total
smoking withdrawal is 40, and the trigger day the 8th withdraws 10. -/
theorem c7_witness :
    getPotLimit [] "pot_smoke" ⟨2025, 12, 1⟩ = 40 ∧
    ((monthDates 2025 12).filter
      (fun d => ([1, 8, 15, 22] : List Nat).contains d.day)).length = 4 ∧
    ((monthDates 2025 12).map (potSmokeDelta [])).sum
      = -(getPotLimit [] "pot_smoke" ⟨2025, 12, 1⟩) ∧
    potSmokeDelta [] ⟨2025, 12, 8⟩ = -10 :=
  ⟨rfl,
   (c7_smoking_pot_quartered [] 2025 12 (by norm_num) (by norm_num)).1,
   (c7_smoking_pot_quartered [] 2025 12 (by norm_num) (by norm_num)).2.2.2,
   by
    have hsplit : potSmokeDelta ([] : List PotConfig) ⟨2025, 12, 8⟩
        = -(getPotLimit [] "pot_smoke" ⟨2025, 12, 8⟩ / 4) := by
      unfold potSmokeDelta
      rw [if_pos (by decide)]
    have h40 : getPotLimit ([] : List PotConfig) "pot_smoke" ⟨2025, 12, 8⟩ = 40 := rfl
    rw [hsplit, h40]
    norm_num⟩

/-! Simulation-loop lemmas for `permanentPositiveForecast`. -/

theorem simRangeSum_succ (transactions : List Transaction) (rules : List RecurringRule)
    (cfg : List PotConfig) (now : SDate) (k : Nat) :
    ((List.range (k + 1)).map
        (fun i => futureDayDelta transactions rules cfg now (addDays (nextDay now) i))).sum
      = ((List.range k).map
          (fun i => futureDayDelta transactions rules cfg now (addDays (nextDay now) i))).sum
        + futureDayDelta transactions rules cfg now (addDays (nextDay now) k) := by
  rw [List.range_succ, List.map_append, List.sum_append]
  simp

theorem simFold_balance (transactions : List Transaction) (rules : List RecurringRule)
    (cfg : List PotConfig) (now : SDate) (n : Nat) (init : SimState) :
    ((List.range n).foldl (simStep transactions rules cfg now (nextDay now)) init).balance
      = init.balance + ((List.range n).map
          (fun i => futureDayDelta transactions rules cfg now (addDays (nextDay now) i))).sum := by
  induction n with
  | zero => simp
  | succ k ih =>
    rw [simRangeSum_succ, List.range_succ, List.foldl_append]
    simp only [List.foldl_cons, List.foldl_nil]
    show (simStep transactions rules cfg now (nextDay now) _ k).balance = _
    simp only [simStep]
    rw [ih]
    ring

theorem simFold_lastNeg_none (transactions : List Transaction) (rules : List RecurringRule)
    (cfg : List PotConfig) (now : SDate) (n : Nat) (init : SimState)
    (h : ∀ i < n, 0 ≤ init.balance + ((List.range (i + 1)).map
        (fun i => futureDayDelta transactions rules cfg now (addDays (nextDay now) i))).sum) :
    ((List.range n).foldl (simStep transactions rules cfg now (nextDay now)) init).lastNegativeDate
      = init.lastNegativeDate := by
  induction n with
  | zero => rfl
  | succ k ih =>
    rw [List.range_succ, List.foldl_append]
    simp only [List.foldl_cons, List.foldl_nil]
    show (simStep transactions rules cfg now (nextDay now) _ k).lastNegativeDate = _
    simp only [simStep]
    rw [if_neg, ih (fun i hi => h i (Nat.lt_succ_of_lt hi))]
    rw [simFold_balance]
    have hk := h k (Nat.lt_succ_self k)
    rw [simRangeSum_succ] at hk
    intro habs
    rw [add_assoc] at habs
    exact absurd habs (not_lt.mpr hk)

theorem simFold_lastNeg_last (transactions : List Transaction) (rules : List RecurringRule)
    (cfg : List PotConfig) (now : SDate) (n : Nat) (init : SimState) (i : Nat)
    (hin : i < n)
    (hneg : init.balance + ((List.range (i + 1)).map
        (fun i => futureDayDelta transactions rules cfg now (addDays (nextDay now) i))).sum < 0)
    (hafter : ∀ j, i < j → j < n → 0 ≤ init.balance + ((List.range (j + 1)).map
        (fun i => futureDayDelta transactions rules cfg now (addDays (nextDay now) i))).sum) :
    ((List.range n).foldl (simStep transactions rules cfg now (nextDay now)) init).lastNegativeDate
      = some (addDays (nextDay now) i) := by
  induction n with
  | zero => exact absurd hin (Nat.not_lt_zero i)
  | succ k ih =>
    rw [List.range_succ, List.foldl_append]
    simp only [List.foldl_cons, List.foldl_nil]
    show (simStep transactions rules cfg now (nextDay now) _ k).lastNegativeDate = _
    simp only [simStep]
    by_cases hik : i = k
    · subst hik
      rw [if_pos]
      rw [simFold_balance, add_assoc, ← simRangeSum_succ]
      exact hneg
    · have hik2 : i < k := by omega
      rw [if_neg, ih hik2 (fun j hj1 hj2 => hafter j hj1 (Nat.lt_succ_of_lt hj2))]
      rw [simFold_balance, add_assoc, ← simRangeSum_succ]
      exact not_lt.mpr (hafter k hik2 (Nat.lt_succ_self k))

theorem simBalanceAt_zero (transactions : List Transaction) (rules : List RecurringRule)
    (cfg : List PotConfig) (now : SDate) :
    simBalanceAt transactions rules cfg now 0 = (computeBalances transactions).bankBalance := by
  simp [simBalanceAt]

theorem reportFromLastNeg_none (s : SDate) : reportFromLastNeg s none = .positive := rfl

theorem reportFromLastNeg_some (s dn : SDate) :
    reportFromLastNeg s (some dn) =
      if dateLe (addDays s (SIMULATION_DAYS - 1)) dn then .impossible
      else .future (nextDay dn) := rfl

/-- C6: the 'permanently non-negative' scan over the 5-year simulation:
a non-negative starting balance that never dips below zero reports
'immediately'; a balance still negative after the last simulated day
reports 'not achievable within the horizon'; otherwise the report is the
day after the last simulated day whose balance is strictly negative. -/
theorem c6_permanent_positive_scan (transactions : List Transaction)
    (rules : List RecurringRule) (cfg : List PotConfig) (now : SDate) (hv : now.Valid) :
    ((0 ≤ simBalanceAt transactions rules cfg now 0 ∧
        ∀ i < SIMULATION_DAYS, 0 ≤ simBalanceAt transactions rules cfg now (i + 1)) →
      permanentPositiveForecast transactions rules cfg now = .positive) ∧
    (simBalanceAt transactions rules cfg now SIMULATION_DAYS < 0 →
      permanentPositiveForecast transactions rules cfg now = .impossible) ∧
    (∀ i, i + 1 < SIMULATION_DAYS →
      simBalanceAt transactions rules cfg now (i + 1) < 0 →
      (∀ j, i < j → j < SIMULATION_DAYS → 0 ≤ simBalanceAt transactions rules cfg now (j + 1)) →
      permanentPositiveForecast transactions rules cfg now
        = .future (nextDay (addDays (nextDay now) i))) := by
  have hss : (nextDay now).Valid := nextDay_valid now hv
  have hN : SIMULATION_DAYS = 1825 := rfl
  refine ⟨?_, ?_, ?_⟩
  · rintro ⟨h0, hall⟩
    rw [simBalanceAt_zero] at h0
    have hnone : ((List.range SIMULATION_DAYS).foldl
        (simStep transactions rules cfg now (nextDay now))
        ⟨(computeBalances transactions).bankBalance,
          if (computeBalances transactions).bankBalance < 0 then some now
          else none⟩).lastNegativeDate = none := by
      rw [simFold_lastNeg_none]
      · exact if_neg (not_lt.mpr h0)
      · intro i hi
        exact hall i hi
    unfold permanentPositiveForecast
    rw [hnone, reportFromLastNeg_none]
  · intro hend
    have hlast : ((List.range SIMULATION_DAYS).foldl
        (simStep transactions rules cfg now (nextDay now))
        ⟨(computeBalances transactions).bankBalance,
          if (computeBalances transactions).bankBalance < 0 then some now
          else none⟩).lastNegativeDate
        = some (addDays (nextDay now) (SIMULATION_DAYS - 1)) := by
      apply simFold_lastNeg_last
      · omega
      · have : SIMULATION_DAYS - 1 + 1 = SIMULATION_DAYS := by omega
        rw [this]
        exact hend
      · intro j hj1 hj2
        omega
    have hrefl : dateLe (addDays (nextDay now) (SIMULATION_DAYS - 1))
        (addDays (nextDay now) (SIMULATION_DAYS - 1)) = true := by
      unfold dateLe
      simp
    unfold permanentPositiveForecast
    rw [hlast, reportFromLastNeg_some, if_pos hrefl]
  · intro i hiN hneg hafter
    have hlast : ((List.range SIMULATION_DAYS).foldl
        (simStep transactions rules cfg now (nextDay now))
        ⟨(computeBalances transactions).bankBalance,
          if (computeBalances transactions).bankBalance < 0 then some now
          else none⟩).lastNegativeDate = some (addDays (nextDay now) i) := by
      apply simFold_lastNeg_last
      · omega
      · exact hneg
      · exact hafter
    have hlt : dateLe (addDays (nextDay now) (SIMULATION_DAYS - 1))
        (addDays (nextDay now) i) = false := by
      unfold dateLe
      rw [toRD_addDays _ hss, toRD_addDays _ hss]
      simp only [decide_eq_false_iff_not, not_le]
      omega
    unfold permanentPositiveForecast
    rw [hlast, reportFromLastNeg_some, if_neg]
    intro habs
    rw [hlt] at habs
    exact Bool.noConfusion habs

/-! C6 witness infrastructure: with all pot limits overridden to zero,
no rules and no future one-offs, every simulated day's delta is zero. -/

theorem getPotLimit_zero420 (d : SDate) : getPotLimit zeroPotConfigs "pot_420" d = 0 := rfl

theorem getPotLimit_zeroWe (d : SDate) : getPotLimit zeroPotConfigs "pot_we" d = 0 := rfl

theorem getPotLimit_zeroWeek (d : SDate) : getPotLimit zeroPotConfigs "pot_week" d = 0 := rfl

theorem getPotLimit_zeroSmoke (d : SDate) : getPotLimit zeroPotConfigs "pot_smoke" d = 0 := rfl

theorem futureDayDelta_zeroCfg (d : SDate) :
    futureDayDelta [debtTx] [] zeroPotConfigs SIM_DATE d = 0 := by
  unfold futureDayDelta rulesDayDelta oneTimeDayDelta pot420Delta potWeekendDelta
    potWeekdayDelta potSmokeDelta
  rw [getPotLimit_zero420, getPotLimit_zeroWe, getPotLimit_zeroWeek, getPotLimit_zeroSmoke]
  have hdl : dateLt SIM_DATE (SDate.mk 2025 11 1) = false := rfl
  simp [debtTx, hdl]

theorem simBalanceAt_zeroCfg (k : Nat) :
    simBalanceAt [debtTx] [] zeroPotConfigs SIM_DATE k = -100 := by
  unfold simBalanceAt
  have hb : (computeBalances [debtTx]).bankBalance = -100 := by
    rw [computeBalances_bank]
    simp [bankContrib, debtTx, signedAmount]
  rw [hb]
  have hz : ∀ x ∈ (List.range k).map
      (fun i => futureDayDelta [debtTx] [] zeroPotConfigs SIM_DATE (addDays (nextDay SIM_DATE) i)),
      x = 0 := by
    intro x hx
    obtain ⟨i, hi, rfl⟩ := List.mem_map.mp hx
    exact futureDayDelta_zeroCfg _
  rw [List.sum_eq_zero hz]
  norm_num

/-- C6 witness: a concrete run (one completed bank expense of 100, no
rules, zero pot limits) keeps the balance at -100 through the whole
horizon, and the forecast reports 'not achievable within the horizon'. -/
theorem c6_witness :
    simBalanceAt [debtTx] [] zeroPotConfigs SIM_DATE SIMULATION_DAYS < 0 ∧
    permanentPositiveForecast [debtTx] [] zeroPotConfigs SIM_DATE = .impossible := by
  have hneg : simBalanceAt [debtTx] [] zeroPotConfigs SIM_DATE SIMULATION_DAYS < 0 := by
    rw [simBalanceAt_zeroCfg]
    norm_num
  exact ⟨hneg,
    (c6_permanent_positive_scan [debtTx] [] zeroPotConfigs SIM_DATE (by decide)).2.1 hneg⟩
